import Mathlib

/-!
Verification of the SFU server's room registry, track manager, signaling
grade computation, pending-ICE queue, event queue and server-level peer
removal, embedded shallowly from the Rust sources
(`src/sfu/room.rs`, `src/sfu/track_manager.rs`, `src/sfu/signaling.rs`,
`src/sfu/server.rs`, `src/substrate/queue.rs`).

The `HashMap<String, V>` fields of the Rust code are embedded as key-unique
association lists with lookup / insert-overwrite / remove operations; the
random room-id draw and the wall clock are passed in as explicit arguments.
-/

/-! ## Association-list model of `HashMap<String, V>` -/

/-- Lookup by key: `HashMap::get`. -/
def lookupA {β : Type} (k : String) : List (String × β) → Option β
  | [] => none
  | (k', v) :: t => if k' = k then some v else lookupA k t

/-- Remove every entry with key `k`: `HashMap::remove` (keys are unique
in any map built from `insertA`/`eraseA`, so at most one entry goes). -/
def eraseA {β : Type} (k : String) : List (String × β) → List (String × β)
  | [] => []
  | (k', v) :: t => if k' = k then eraseA k t else (k', v) :: eraseA k t

/-- Insert with overwrite semantics: `HashMap::insert`. -/
def insertA {β : Type} (k : String) (v : β) (l : List (String × β)) :
    List (String × β) :=
  (k, v) :: eraseA k l

theorem lookupA_eraseA {β : Type} (k k' : String) (l : List (String × β)) :
    lookupA k' (eraseA k l) = if k = k' then none else lookupA k' l := by
  induction l with
  | nil => simp [eraseA, lookupA]
  | cons hd t ih =>
    obtain ⟨hk, hv⟩ := hd
    by_cases h1 : hk = k
    · subst h1
      rw [eraseA, if_pos rfl, ih, lookupA]
      by_cases h2 : hk = k' <;> simp [h2]
    · rw [eraseA, if_neg h1, lookupA, lookupA]
      by_cases h2 : hk = k'
      · subst h2
        have : ¬ hk = k := h1
        simp [if_neg (fun hh : k = hk => h1 hh.symm)]
      · simp [h2, ih]

theorem lookupA_insertA {β : Type} (k k' : String) (v : β)
    (l : List (String × β)) :
    lookupA k' (insertA k v l) =
      if k = k' then some v else lookupA k' l := by
  by_cases h : k = k' <;>
    simp [insertA, lookupA, h, lookupA_eraseA]

/-- Key-uniqueness of an association list, as maintained by
`insertA` / `eraseA`; it mirrors the key-uniqueness of a `HashMap`. -/
def WFA {β : Type} : List (String × β) → Prop
  | [] => True
  | (k, _) :: t => lookupA k t = none ∧ WFA t

theorem WFA_eraseA {β : Type} (k : String) (l : List (String × β))
    (h : WFA l) : WFA (eraseA k l) := by
  induction l with
  | nil => exact h
  | cons hd t ih =>
    obtain ⟨hk, hv⟩ := hd
    obtain ⟨h1, h2⟩ := h
    by_cases hkk : hk = k
    · rw [eraseA, if_pos hkk]
      exact ih h2
    · rw [eraseA, if_neg hkk]
      refine ⟨?_, ih h2⟩
      rw [lookupA_eraseA]
      by_cases hx : k = hk <;> simp [hx, h1]

theorem WFA_insertA {β : Type} (k : String) (v : β) (l : List (String × β))
    (h : WFA l) : WFA (insertA k v l) := by
  refine ⟨?_, WFA_eraseA k l h⟩
  rw [lookupA_eraseA, if_pos rfl]

/-! ## Room registry (`src/sfu/room.rs`) -/

/-- Peer role, from `room.rs`. -/
inductive PeerRole
  | Proctor
  | Student
deriving DecidableEq, Repr

/-- A peer, from `room.rs` (`pub struct Peer`). -/
structure Peer where
  id : String
  role : PeerRole
  room_id : String
  name : Option String
deriving DecidableEq, Repr

/-- A room, from `room.rs` (`pub struct Room`); the `created_at` timestamp
is not modeled (no claim mentions it). -/
structure Room where
  id : String
  proctor_id : String
  students : List String
deriving DecidableEq, Repr

/-- The two maps of `RoomManager`. -/
structure RoomManager where
  rooms : List (String × Room)
  peers : List (String × Peer)
deriving DecidableEq, Repr

def RoomManager.empty : RoomManager := ⟨[], []⟩

/-- `RoomManager::create_room`. The randomly drawn id
(`Self::generate_room_id()`) is passed in as `room_id`. On a collision the
code returns `Err("Room ID collision, please try again")` without touching
either map; otherwise it inserts the Room and the Proctor peer
(overwriting any existing peer entry for `proctor_id`). -/
def RoomManager.create_room (room_id proctor_id : String)
    (proctor_name : Option String) (m : RoomManager) :
    Except String RoomManager :=
  let room : Room := ⟨room_id, proctor_id, []⟩
  let peer : Peer := ⟨proctor_id, PeerRole.Proctor, room_id, proctor_name⟩
  if (lookupA room_id m.rooms).isSome then
    .error "Room ID collision, please try again"
  else
    .ok ⟨insertA room_id room m.rooms, insertA proctor_id peer m.peers⟩

/-- `RoomManager::join_room`. -/
def RoomManager.join_room (room_id student_id : String)
    (student_name : Option String) (m : RoomManager) :
    Except String RoomManager :=
  match lookupA room_id m.rooms with
  | none => .error ("Room " ++ room_id ++ " does not exist")
  | some room =>
    if student_id ∈ room.students then
      .ok m
    else
      let room' := { room with students := room.students ++ [student_id] }
      let peer : Peer := ⟨student_id, PeerRole.Student, room_id, student_name⟩
      .ok ⟨insertA room_id room' m.rooms, insertA student_id peer m.peers⟩

/-- Remove every peer whose `room_id` is `rid`: the
`students_to_remove` collect-then-remove loop of `RoomManager::remove_peer`. -/
def removeRoomPeers (rid : String) : List (String × Peer) → List (String × Peer)
  | [] => []
  | (k, p) :: t =>
    if p.room_id = rid then removeRoomPeers rid t
    else (k, p) :: removeRoomPeers rid t

/-- `RoomManager::remove_peer`: removes the peer; a proctor takes the whole
room and every peer of that room with it, a student is dropped from the
room's student list. Returns `(room_id, role, name)` when the peer existed. -/
def RoomManager.remove_peer (peer_id : String) (m : RoomManager) :
    Option (String × PeerRole × Option String) × RoomManager :=
  match lookupA peer_id m.peers with
  | none => (none, m)
  | some peer =>
    let peers1 := eraseA peer_id m.peers
    match lookupA peer.room_id m.rooms with
    | none => (some (peer.room_id, peer.role, peer.name), ⟨m.rooms, peers1⟩)
    | some room =>
      match peer.role with
      | .Proctor =>
        (some (peer.room_id, peer.role, peer.name),
         ⟨eraseA peer.room_id m.rooms, removeRoomPeers peer.room_id peers1⟩)
      | .Student =>
        let room' := { room with
          students := room.students.filter (fun s => s ≠ peer_id) }
        (some (peer.room_id, peer.role, peer.name),
         ⟨insertA peer.room_id room' m.rooms, peers1⟩)

/-- `RoomManager::get_peer`. -/
def RoomManager.get_peer (peer_id : String) (m : RoomManager) : Option Peer :=
  lookupA peer_id m.peers

/-- `RoomManager::get_room`. -/
def RoomManager.get_room (room_id : String) (m : RoomManager) : Option Room :=
  lookupA room_id m.rooms

/-- `RoomManager::room_exists`. -/
def RoomManager.room_exists (room_id : String) (m : RoomManager) : Bool :=
  (lookupA room_id m.rooms).isSome

/-- `RoomManager::get_room_peers`. -/
def RoomManager.get_room_peers (room_id : String) (m : RoomManager) :
    List Peer :=
  (m.peers.filter (fun p => p.2.room_id = room_id)).map Prod.snd

/-- `RoomManager::get_room_proctor`. -/
def RoomManager.get_room_proctor (room_id : String) (m : RoomManager) :
    Option String :=
  (lookupA room_id m.rooms).map Room.proctor_id

/-- `RoomManager::should_forward_track`. -/
def RoomManager.should_forward_track (from_peer_id to_peer_id : String)
    (m : RoomManager) : Bool :=
  if from_peer_id = to_peer_id then
    false
  else
    match lookupA from_peer_id m.peers, lookupA to_peer_id m.peers with
    | some from_peer, some to_peer =>
      if from_peer.room_id ≠ to_peer.room_id then
        false
      else
        match from_peer.role, to_peer.role with
        | .Proctor, _ => true
        | .Student, .Proctor => true
        | .Student, .Student => false
    | _, _ => false

/-! ## C1: characterization of `should_forward_track` -/

/-- C1: `should_forward_track(from, to)` returns false when `from = to`,
when either peer is unknown, or when the two peers' room ids differ;
otherwise it is true when the source is a Proctor, true for
Student→Proctor, and false for Student→Student. -/
theorem should_forward_track_spec (m : RoomManager) (f t : String) :
    (f = t → m.should_forward_track f t = false)
    ∧ (m.get_peer f = none → m.should_forward_track f t = false)
    ∧ (m.get_peer t = none → m.should_forward_track f t = false)
    ∧ (∀ fp tp, m.get_peer f = some fp → m.get_peer t = some tp →
        fp.room_id ≠ tp.room_id → m.should_forward_track f t = false)
    ∧ (∀ fp tp, f ≠ t → m.get_peer f = some fp → m.get_peer t = some tp →
        fp.room_id = tp.room_id → fp.role = .Proctor →
        m.should_forward_track f t = true)
    ∧ (∀ fp tp, f ≠ t → m.get_peer f = some fp → m.get_peer t = some tp →
        fp.room_id = tp.room_id → fp.role = .Student → tp.role = .Proctor →
        m.should_forward_track f t = true)
    ∧ (∀ fp tp, m.get_peer f = some fp → m.get_peer t = some tp →
        fp.role = .Student → tp.role = .Student →
        m.should_forward_track f t = false) := by
  refine ⟨?_, ?_, ?_, ?_, ?_, ?_, ?_⟩ <;>
    simp only [RoomManager.should_forward_track, RoomManager.get_peer]
  · intro h
    simp [h]
  · intro h
    by_cases hft : f = t <;> simp [hft, h]
  · intro h
    by_cases hft : f = t
    · simp [hft]
    · cases lookupA f m.peers <;> simp [hft, h]
  · intro fp tp hf ht hne
    by_cases hft : f = t <;> simp [hft, hf, ht, hne]
  · intro fp tp hft hf ht hroom hrole
    simp [hft, hf, ht, hroom, hrole]
  · intro fp tp hft hf ht hroom hrole1 hrole2
    simp [hft, hf, ht, hroom, hrole1, hrole2]
  · intro fp tp hf ht hrole1 hrole2
    by_cases hft : f = t
    · simp [hft]
    · by_cases hroom : fp.room_id = tp.room_id <;>
        simp [hft, hf, ht, hroom, hrole1, hrole2]

/-- Witness for C1 on a concrete two-peer room. -/
def rmWitness : RoomManager :=
  ⟨[("100000", ⟨"100000", "p1", ["s1"]⟩)],
   [("p1", ⟨"p1", .Proctor, "100000", none⟩),
    ("s1", ⟨"s1", .Student, "100000", none⟩)]⟩

theorem should_forward_track_spec_witness :
    rmWitness.should_forward_track "p1" "p1" = false
    ∧ rmWitness.should_forward_track "p1" "s1" = true
    ∧ rmWitness.should_forward_track "s1" "p1" = true := by
  refine ⟨(should_forward_track_spec rmWitness "p1" "p1").1 rfl, ?_, ?_⟩
  · exact (should_forward_track_spec rmWitness "p1" "s1").2.2.2.2.1
      ⟨"p1", .Proctor, "100000", none⟩ ⟨"s1", .Student, "100000", none⟩
      (by decide) (by decide) (by decide) rfl rfl
  · exact (should_forward_track_spec rmWitness "s1" "p1").2.2.2.2.2.1
      ⟨"s1", .Student, "100000", none⟩ ⟨"p1", .Proctor, "100000", none⟩
      (by decide) (by decide) (by decide) rfl rfl rfl

/-! ## Lemmas about `removeRoomPeers` -/

theorem lookupA_removeRoomPeers (rid sid : String)
    (l : List (String × Peer)) (h : WFA l) :
    lookupA sid (removeRoomPeers rid l) =
      match lookupA sid l with
      | some p => if p.room_id = rid then none else some p
      | none => none := by
  induction l with
  | nil => rfl
  | cons hd t ih =>
    obtain ⟨k, p⟩ := hd
    obtain ⟨hk, ht⟩ := h
    by_cases hr : p.room_id = rid
    · rw [removeRoomPeers, if_pos hr, lookupA]
      by_cases hks : k = sid
      · subst hks
        rw [ih ht, hk]
        simp [hr]
      · rw [if_neg hks]
        exact ih ht
    · rw [removeRoomPeers, if_neg hr, lookupA, lookupA]
      by_cases hks : k = sid
      · simp [hks, hr]
      · simp [hks]
        exact ih ht

theorem WFA_removeRoomPeers (rid : String) (l : List (String × Peer))
    (h : WFA l) : WFA (removeRoomPeers rid l) := by
  induction l with
  | nil => exact h
  | cons hd t ih =>
    obtain ⟨k, p⟩ := hd
    obtain ⟨hk, ht⟩ := h
    by_cases hr : p.room_id = rid
    · rw [removeRoomPeers, if_pos hr]
      exact ih ht
    · rw [removeRoomPeers, if_neg hr]
      refine ⟨?_, ih ht⟩
      rw [lookupA_removeRoomPeers rid k t ht, hk]

/-! ## C2: removing the proctor removes the room and all its peers -/

/-- C2: if peer `p` is the Proctor of room `rid` then after
`remove_peer(p)` the room no longer exists and every peer whose `room_id`
was `rid` is gone from the peer map; both effects are produced by the one
`remove_peer` call. -/
theorem remove_peer_proctor_cascade (m : RoomManager) (p rid : String)
    (pr : Peer) (hwf : WFA m.peers)
    (hp : m.get_peer p = some pr)
    (hrole : pr.role = PeerRole.Proctor)
    (hroom : pr.room_id = rid)
    (hex : m.room_exists rid = true) :
    (m.remove_peer p).2.room_exists rid = false
    ∧ ∀ s ps, m.get_peer s = some ps → ps.room_id = rid →
        (m.remove_peer p).2.get_peer s = none := by
  subst hroom
  obtain ⟨room, hrm⟩ : ∃ room, lookupA pr.room_id m.rooms = some room := by
    simpa [RoomManager.room_exists, Option.isSome_iff_exists] using hex
  have hstep : m.remove_peer p =
      (some (pr.room_id, pr.role, pr.name),
       ⟨eraseA pr.room_id m.rooms,
        removeRoomPeers pr.room_id (eraseA p m.peers)⟩) := by
    simp [RoomManager.remove_peer, RoomManager.get_peer] at hp ⊢
    simp [hp, hrm, hrole]
  rw [hstep]
  constructor
  · simp [RoomManager.room_exists, lookupA_eraseA]
  · intro s ps hs hsrid
    simp only [RoomManager.get_peer] at hs ⊢
    rw [lookupA_removeRoomPeers _ _ _ (WFA_eraseA p m.peers hwf),
        lookupA_eraseA]
    by_cases hps : p = s
    · simp [hps]
    · simp [hps, hs, hsrid]

theorem remove_peer_proctor_cascade_witness :
    (rmWitness.remove_peer "p1").2.room_exists "100000" = false
    ∧ (rmWitness.remove_peer "p1").2.get_peer "s1" = none := by
  have h := remove_peer_proctor_cascade rmWitness "p1" "100000"
    ⟨"p1", .Proctor, "100000", none⟩
    (by exact ⟨rfl, rfl, trivial⟩) rfl rfl rfl rfl
  exact ⟨h.1, h.2 "s1" ⟨"s1", .Student, "100000", none⟩ rfl rfl⟩

/-! ## C4: `create_room` has no collision retry and no duplicate-peer check -/

/-- C4 counterexample: with room `"100000"` already present,
`create_room` with the colliding draw returns an error instead of retrying
with a new id; and with peer `"p1"` already registered in room `"100000"`,
`create_room("100001", "p1")` succeeds and silently overwrites the
existing peer entry instead of failing. -/
theorem create_room_counterexample :
    (RoomManager.create_room "100000" "p2" none rmWitness
       = .error "Room ID collision, please try again")
    ∧ (RoomManager.create_room "100001" "p1" none rmWitness
       = .ok ⟨[("100001", ⟨"100001", "p1", []⟩),
               ("100000", ⟨"100000", "p1", ["s1"]⟩)],
              [("p1", ⟨"p1", .Proctor, "100001", none⟩),
               ("s1", ⟨"s1", .Student, "100000", none⟩)]⟩) :=
  ⟨rfl, rfl⟩

/-- C4 (amended): `create_room` draws one id; if it collides with an
existing room it returns the error `"Room ID collision, please try again"`
without inserting anything (no retry); otherwise it inserts the room and
the Proctor peer unconditionally — a `proctor_id` already present in the
peer map is not rejected, its entry is overwritten. -/
theorem create_room_spec (m : RoomManager) (rid pid : String)
    (nm : Option String) :
    ((lookupA rid m.rooms).isSome →
      RoomManager.create_room rid pid nm m
        = .error "Room ID collision, please try again")
    ∧ (lookupA rid m.rooms = none →
      RoomManager.create_room rid pid nm m
        = .ok ⟨insertA rid ⟨rid, pid, []⟩ m.rooms,
               insertA pid ⟨pid, PeerRole.Proctor, rid, nm⟩ m.peers⟩
      ∧ lookupA pid (insertA pid ⟨pid, PeerRole.Proctor, rid, nm⟩ m.peers)
          = some ⟨pid, PeerRole.Proctor, rid, nm⟩) := by
  constructor
  · intro h
    simp [RoomManager.create_room, h]
  · intro h
    refine ⟨by simp [RoomManager.create_room, h], ?_⟩
    rw [lookupA_insertA, if_pos rfl]

theorem create_room_spec_witness :
    (RoomManager.create_room "100000" "p2" none rmWitness
       = .error "Room ID collision, please try again")
    ∧ RoomManager.create_room "100001" "p2" none rmWitness
       = .ok ⟨insertA "100001" ⟨"100001", "p2", []⟩ rmWitness.rooms,
              insertA "p2" ⟨"p2", .Proctor, "100001", none⟩ rmWitness.peers⟩ :=
  ⟨(create_room_spec rmWitness "100000" "p2" none).1 (by rfl),
   ((create_room_spec rmWitness "100001" "p2" none).2 (by rfl)).1⟩

/-! ## C5: agreement of student lists and peer map (invariant I3) -/

/-- Invariant I1 of the spec: every peer's `room_id` refers to an extant
room. -/
def PeerRoomsExist (m : RoomManager) : Prop :=
  ∀ pid p, lookupA pid m.peers = some p →
    ∃ r, lookupA p.room_id m.rooms = some r

/-- Invariant I3 of the spec: a peer id appears in some room's students
list iff the peer map has that id with role Student and that room's id. -/
def StudentListsAgree (m : RoomManager) : Prop :=
  ∀ rid room, lookupA rid m.rooms = some room →
    ∀ sid, sid ∈ room.students ↔
      ∃ p, lookupA sid m.peers = some p ∧ p.role = PeerRole.Student
        ∧ p.room_id = rid

/-- Inductive invariant carried through the operations: key-uniqueness of
the peer map plus I1 plus I3. -/
def RmInv (m : RoomManager) : Prop :=
  WFA m.peers ∧ PeerRoomsExist m ∧ StudentListsAgree m

/-- One `RoomManager` operation. -/
inductive RoomOp
  | create (room_id proctor_id : String) (name : Option String)
  | join (room_id student_id : String) (name : Option String)
  | remove (peer_id : String)

/-- Apply one operation; a failing `create_room`/`join_room` returns its
error without mutating the maps, so the state is unchanged. -/
def applyOp (m : RoomManager) : RoomOp → RoomManager
  | .create rid pid nm =>
    match RoomManager.create_room rid pid nm m with
    | .ok m' => m'
    | .error _ => m
  | .join rid sid nm =>
    match RoomManager.join_room rid sid nm m with
    | .ok m' => m'
    | .error _ => m
  | .remove pid => (RoomManager.remove_peer pid m).2

def applyOps (m : RoomManager) : List RoomOp → RoomManager
  | [] => m
  | op :: rest => applyOps (applyOp m op) rest

/-- Restriction under which I3 is preserved: `create_room` is not called
with an id that is already a peer, and `join_room` is not called with a
student id that is already a peer of a different room (or a non-student
of this room). -/
def GoodOp (m : RoomManager) : RoomOp → Prop
  | .create _ pid _ => lookupA pid m.peers = none
  | .join rid sid _ =>
    lookupA sid m.peers = none
    ∨ ∃ p, lookupA sid m.peers = some p ∧ p.role = PeerRole.Student
        ∧ p.room_id = rid
  | .remove _ => True

def GoodSeq : RoomManager → List RoomOp → Prop
  | _, [] => True
  | m, op :: rest => GoodOp m op ∧ GoodSeq (applyOp m op) rest

theorem RmInv_create (m : RoomManager) (rid pid : String)
    (nm : Option String) (hi : RmInv m) (hg : lookupA pid m.peers = none) :
    RmInv (applyOp m (.create rid pid nm)) := by
  obtain ⟨hwf, h1, h3⟩ := hi
  unfold applyOp
  cases hrm : lookupA rid m.rooms with
  | some r =>
    simp [RoomManager.create_room, hrm]
    exact ⟨hwf, h1, h3⟩
  | none =>
    simp [RoomManager.create_room, hrm]
    refine ⟨WFA_insertA _ _ _ hwf, ?_, ?_⟩
    · intro pid' p' hp'
      rw [lookupA_insertA] at hp'
      by_cases hpp : pid = pid'
      · rw [if_pos hpp] at hp'
        cases hp'
        exact ⟨⟨rid, pid, []⟩, by rw [lookupA_insertA, if_pos rfl]⟩
      · rw [if_neg hpp] at hp'
        obtain ⟨r, hr⟩ := h1 pid' p' hp'
        rw [lookupA_insertA]
        by_cases hrr : rid = p'.room_id
        · exact ⟨_, by rw [if_pos hrr]⟩
        · exact ⟨r, by rw [if_neg hrr]; exact hr⟩
    · intro rid' room' hr' sid
      rw [lookupA_insertA] at hr'
      by_cases hrr : rid = rid'
      · rw [if_pos hrr] at hr'
        cases hr'
        constructor
        · intro hmem
          exact absurd hmem (List.not_mem_nil sid)
        · rintro ⟨p, hp, hrole, hrid⟩
          rw [lookupA_insertA] at hp
          by_cases hps : pid = sid
          · rw [if_pos hps] at hp
            cases hp
            cases hrole
          · rw [if_neg hps] at hp
            obtain ⟨r0, hr0⟩ := h1 sid p hp
            rw [hrid, ← hrr, hrm] at hr0
            cases hr0
      · rw [if_neg hrr] at hr'
        have hold := h3 rid' room' hr' sid
        rw [hold]
        constructor
        · rintro ⟨p, hp, hrole, hrid⟩
          refine ⟨p, ?_, hrole, hrid⟩
          rw [lookupA_insertA]
          by_cases hps : pid = sid
          · rw [← hps, hg] at hp
            cases hp
          · rw [if_neg hps]
            exact hp
        · rintro ⟨p, hp, hrole, hrid⟩
          rw [lookupA_insertA] at hp
          by_cases hps : pid = sid
          · rw [if_pos hps] at hp
            cases hp
            cases hrole
          · rw [if_neg hps] at hp
            exact ⟨p, hp, hrole, hrid⟩

theorem RmInv_join (m : RoomManager) (rid sid : String) (nm : Option String)
    (hi : RmInv m) (hg : GoodOp m (.join rid sid nm)) :
    RmInv (applyOp m (.join rid sid nm)) := by
  obtain ⟨hwf, h1, h3⟩ := hi
  unfold applyOp
  cases hrm : lookupA rid m.rooms with
  | none =>
    simp [RoomManager.join_room, hrm]
    exact ⟨hwf, h1, h3⟩
  | some room =>
    by_cases hmem : sid ∈ room.students
    · simp [RoomManager.join_room, hrm, hmem]
      exact ⟨hwf, h1, h3⟩
    · have hfresh : lookupA sid m.peers = none := by
        cases hg with
        | inl h => exact h
        | inr h =>
          obtain ⟨p, hp, hrole, hrid⟩ := h
          exact absurd ((h3 rid room hrm sid).mpr ⟨p, hp, hrole, hrid⟩) hmem
      simp [RoomManager.join_room, hrm, hmem]
      refine ⟨WFA_insertA _ _ _ hwf, ?_, ?_⟩
      · intro pid' p' hp'
        rw [lookupA_insertA] at hp'
        by_cases hss : sid = pid'
        · rw [if_pos hss] at hp'
          cases hp'
          exact ⟨_, by rw [lookupA_insertA, if_pos rfl]⟩
        · rw [if_neg hss] at hp'
          obtain ⟨r, hr⟩ := h1 pid' p' hp'
          rw [lookupA_insertA]
          by_cases hrr : rid = p'.room_id
          · exact ⟨_, by rw [if_pos hrr]⟩
          · exact ⟨r, by rw [if_neg hrr]; exact hr⟩
      · intro rid2 room2 hr2 sid2
        rw [lookupA_insertA] at hr2
        by_cases hrr : rid = rid2
        · rw [if_pos hrr] at hr2
          cases hr2
          rw [List.mem_append, List.mem_singleton, lookupA_insertA]
          by_cases hss : sid = sid2
          · subst hss
            simp only [or_true, true_iff, if_pos rfl]
            exact ⟨_, rfl, rfl, hrr⟩
          · rw [if_neg hss]
            have hold := h3 rid room hrm sid2
            rw [← hrr]
            constructor
            · intro hmem2
              cases hmem2 with
              | inl h => exact hold.mp h
              | inr h => exact absurd h.symm hss
            · intro h
              exact Or.inl (hold.mpr h)
        · rw [if_neg hrr] at hr2
          have hold := h3 rid2 room2 hr2 sid2
          rw [hold, lookupA_insertA]
          by_cases hss : sid = sid2
          · constructor
            · rintro ⟨p, hp, hrole, hrid⟩
              rw [← hss, hfresh] at hp
              cases hp
            · rintro ⟨p, hp, hrole, hrid⟩
              rw [if_pos hss] at hp
              cases hp
              exact absurd hrid hrr
          · rw [if_neg hss]

theorem lookupA_removeRoomPeers_none (rid sid : String)
    (l : List (String × Peer)) (h : WFA l) (hp : lookupA sid l = none) :
    lookupA sid (removeRoomPeers rid l) = none := by
  rw [lookupA_removeRoomPeers rid sid l h, hp]

theorem lookupA_removeRoomPeers_some (rid sid : String)
    (l : List (String × Peer)) (p : Peer) (h : WFA l)
    (hp : lookupA sid l = some p) :
    lookupA sid (removeRoomPeers rid l)
      = if p.room_id = rid then none else some p := by
  rw [lookupA_removeRoomPeers rid sid l h, hp]

theorem RmInv_remove (m : RoomManager) (pid : String) (hi : RmInv m) :
    RmInv (applyOp m (.remove pid)) := by
  obtain ⟨hwf, h1, h3⟩ := hi
  show RmInv (RoomManager.remove_peer pid m).2
  cases hp : lookupA pid m.peers with
  | none =>
    simp [RoomManager.remove_peer, hp]
    exact ⟨hwf, h1, h3⟩
  | some pr =>
    obtain ⟨room, hr⟩ := h1 pid pr hp
    have hwfe := WFA_eraseA pid m.peers hwf
    cases hrole : pr.role with
    | Proctor =>
      have hred : (RoomManager.remove_peer pid m).2 =
          ⟨eraseA pr.room_id m.rooms,
           removeRoomPeers pr.room_id (eraseA pid m.peers)⟩ := by
        simp [RoomManager.remove_peer, hp, hr, hrole]
      rw [hred]
      refine ⟨WFA_removeRoomPeers _ _ hwfe, ?_, ?_⟩
      · intro pid' p' hp'
        cases hlk : lookupA pid' (eraseA pid m.peers) with
        | none =>
          rw [lookupA_removeRoomPeers_none _ _ _ hwfe hlk] at hp'
          cases hp'
        | some q =>
          rw [lookupA_removeRoomPeers_some _ _ _ _ hwfe hlk] at hp'
          by_cases hq : q.room_id = pr.room_id
          · rw [if_pos hq] at hp'
            cases hp'
          · rw [if_neg hq] at hp'
            cases hp'
            rw [lookupA_eraseA] at hlk
            by_cases hpp : pid = pid'
            · rw [if_pos hpp] at hlk
              cases hlk
            · rw [if_neg hpp] at hlk
              obtain ⟨r2, hr2⟩ := h1 pid' p' hlk
              refine ⟨r2, ?_⟩
              rw [lookupA_eraseA, if_neg (fun he => hq he.symm)]
              exact hr2
      · intro rid2 room2 hr2 sid
        rw [lookupA_eraseA] at hr2
        by_cases hrr : pr.room_id = rid2
        · rw [if_pos hrr] at hr2
          cases hr2
        · rw [if_neg hrr] at hr2
          have hold := h3 rid2 room2 hr2 sid
          constructor
          · intro hmem
            obtain ⟨p, hp2, hrole2, hrid2⟩ := hold.mp hmem
            have hps : ¬ pid = sid := by
              intro he
              subst he
              rw [hp] at hp2
              cases hp2
              rw [hrole] at hrole2
              cases hrole2
            have hlk : lookupA sid (eraseA pid m.peers) = some p := by
              rw [lookupA_eraseA, if_neg hps]
              exact hp2
            refine ⟨p, ?_, hrole2, hrid2⟩
            rw [lookupA_removeRoomPeers_some _ _ _ _ hwfe hlk, hrid2,
                if_neg (fun he => hrr he.symm)]
          · rintro ⟨p, hp2, hrole2, hrid2⟩
            cases hlk : lookupA sid (eraseA pid m.peers) with
            | none =>
              rw [lookupA_removeRoomPeers_none _ _ _ hwfe hlk] at hp2
              cases hp2
            | some q =>
              rw [lookupA_removeRoomPeers_some _ _ _ _ hwfe hlk] at hp2
              by_cases hq : q.room_id = pr.room_id
              · rw [if_pos hq] at hp2
                cases hp2
              · rw [if_neg hq] at hp2
                cases hp2
                rw [lookupA_eraseA] at hlk
                by_cases hps : pid = sid
                · rw [if_pos hps] at hlk
                  cases hlk
                · rw [if_neg hps] at hlk
                  exact hold.mpr ⟨p, hlk, hrole2, hrid2⟩
    | Student =>
      have hred : (RoomManager.remove_peer pid m).2 =
          ⟨insertA pr.room_id
             { room with students := room.students.filter (fun s => s ≠ pid) }
             m.rooms,
           eraseA pid m.peers⟩ := by
        simp [RoomManager.remove_peer, hp, hr, hrole]
      rw [hred]
      refine ⟨hwfe, ?_, ?_⟩
      · intro pid' p' hp'
        rw [lookupA_eraseA] at hp'
        by_cases hpp : pid = pid'
        · rw [if_pos hpp] at hp'
          cases hp'
        · rw [if_neg hpp] at hp'
          obtain ⟨r2, hr2⟩ := h1 pid' p' hp'
          rw [lookupA_insertA]
          by_cases hrr : pr.room_id = p'.room_id
          · exact ⟨_, by rw [if_pos hrr]⟩
          · exact ⟨r2, by rw [if_neg hrr]; exact hr2⟩
      · intro rid2 room2 hr2 sid
        rw [lookupA_insertA] at hr2
        by_cases hrr : pr.room_id = rid2
        · subst hrr
          rw [if_pos rfl] at hr2
          cases hr2
          have hold := h3 pr.room_id room hr sid
          simp only [List.mem_filter, decide_eq_true_eq]
          rw [lookupA_eraseA]
          by_cases hps : pid = sid
          · constructor
            · rintro ⟨hmem, hne⟩
              exact absurd hps.symm hne
            · rintro ⟨p, hnone, _⟩
              rw [if_pos hps] at hnone
              cases hnone
          · rw [if_neg hps]
            constructor
            · rintro ⟨hmem, _⟩
              exact hold.mp hmem
            · rintro ⟨p, hp2, hrole2, hrid2⟩
              exact ⟨hold.mpr ⟨p, hp2, hrole2, hrid2⟩, fun he => hps he.symm⟩
        · rw [if_neg hrr] at hr2
          have hold := h3 rid2 room2 hr2 sid
          rw [lookupA_eraseA]
          by_cases hps : pid = sid
          · subst hps
            constructor
            · intro hmem
              obtain ⟨p, hp2, hrole2, hrid2⟩ := hold.mp hmem
              rw [hp] at hp2
              cases hp2
              exact absurd hrid2 hrr
            · rintro ⟨p, hnone, _⟩
              rw [if_pos rfl] at hnone
              cases hnone
          · rw [if_neg hps]
            exact hold

theorem RmInv_applyOp (m : RoomManager) (op : RoomOp) (hi : RmInv m)
    (hg : GoodOp m op) : RmInv (applyOp m op) := by
  cases op with
  | create rid pid nm => exact RmInv_create m rid pid nm hi hg
  | join rid sid nm => exact RmInv_join m rid sid nm hi hg
  | remove pid => exact RmInv_remove m pid hi

theorem RmInv_applyOps (ops : List RoomOp) :
    ∀ m, RmInv m → GoodSeq m ops → RmInv (applyOps m ops) := by
  induction ops with
  | nil => exact fun m hi _ => hi
  | cons op rest ih =>
    intro m hi hg
    exact ih (applyOp m op) (RmInv_applyOp m op hi hg.1) hg.2

theorem RmInv_empty : RmInv RoomManager.empty := by
  refine ⟨trivial, ?_, ?_⟩
  · intro pid p hp
    cases hp
  · intro rid room hr
    cases hr

/-- C5 (amended): invariant I3 — a peer id appears in some room's students
list iff the peer map holds that id with role Student and that room's id —
holds in every state reached from the empty manager by a sequence of
`create_room` / `join_room` / `remove_peer` operations in which
`create_room` is never called with a `proctor_id` that is already a peer
and `join_room` is never called with a `student_id` that is already a peer
of a different room (or a non-student of that room). Without that
restriction the invariant fails (see the counterexample). -/
theorem student_lists_agree_of_goodSeq (ops : List RoomOp)
    (h : GoodSeq RoomManager.empty ops) :
    StudentListsAgree (applyOps RoomManager.empty ops) :=
  (RmInv_applyOps ops RoomManager.empty RmInv_empty h).2.2

def goodOpsW : List RoomOp :=
  [.create "100000" "p1" none, .join "100000" "s1" none, .remove "s1"]

theorem student_lists_agree_of_goodSeq_witness :
    StudentListsAgree (applyOps RoomManager.empty goodOpsW) :=
  student_lists_agree_of_goodSeq goodOpsW ⟨rfl, Or.inl rfl, trivial, trivial⟩

/-- Sequence violating I3: student `"s1"` joins room `"100000"`, then
joins room `"100001"`; the first room's student list still holds `"s1"`
while the peer map now says `"s1"` is in `"100001"`. -/
def badRoomOps : List RoomOp :=
  [.create "100000" "p1" none, .create "100001" "p2" none,
   .join "100000" "s1" none, .join "100001" "s1" none]

/-- C5 counterexample: after `badRoomOps`, room `"100000"`'s student list
contains `"s1"` but the peer map holds `"s1"` with `room_id = "100001"`,
so invariant I3 fails on a reachable state of the three operations. -/
theorem student_lists_agree_counterexample :
    ¬ StudentListsAgree (applyOps RoomManager.empty badRoomOps) := by
  intro h
  have hroom : lookupA "100000" (applyOps RoomManager.empty badRoomOps).rooms
      = some ⟨"100000", "p1", ["s1"]⟩ := rfl
  have hmem : "s1" ∈ (Room.mk "100000" "p1" ["s1"]).students := by
    simp
  obtain ⟨p, hp, hrole, hrid⟩ := (h "100000" _ hroom "s1").mp hmem
  have hpeer : lookupA "s1" (applyOps RoomManager.empty badRoomOps).peers
      = some ⟨"s1", PeerRole.Student, "100001", none⟩ := rfl
  rw [hpeer] at hp
  cases hp
  exact absurd hrid (by decide)

/-! ## C9: room-id generation (`RoomManager::generate_room_id`) -/

/-- Decimal digits (most significant first) printed by
`format!("{:06}", n)` for the generator's draw range `n < 1000000`:
six zero-padded decimal digits. -/
def format06digits (n : Nat) : List Nat :=
  [n / 100000 % 10, n / 10000 % 10, n / 1000 % 10,
   n / 100 % 10, n / 10 % 10, n % 10]

def digitChar (d : Nat) : Char := Char.ofNat (48 + d)

/-- `RoomManager::generate_room_id`: the `rand::thread_rng()` draw
`gen_range(100000..999999)` (half-open, so `100000 ≤ draw < 999999`) is
passed in as `draw`; the function formats it with `format!("{:06}", draw)`. -/
def generate_room_id (draw : Nat) : String :=
  ⟨(format06digits draw).map digitChar⟩

/-- Numeric value of a most-significant-first decimal digit list. -/
def digitsVal (l : List Nat) : Nat :=
  l.foldl (fun acc d => 10 * acc + d) 0

/-- C9 (amended): every generated room id is a string of exactly six
decimal digits whose numeric value equals the draw and lies in the
inclusive range `100000..=999998`; the value `999999` is excluded because
`gen_range(100000..999999)` has an exclusive upper bound. -/
theorem generate_room_id_spec (draw : Nat) (h1 : 100000 ≤ draw)
    (h2 : draw < 999999) :
    (generate_room_id draw).length = 6
    ∧ (∀ c ∈ (generate_room_id draw).data, '0' ≤ c ∧ c ≤ '9')
    ∧ digitsVal (format06digits draw) = draw
    ∧ 100000 ≤ digitsVal (format06digits draw)
    ∧ digitsVal (format06digits draw) ≤ 999998 := by
  have hval : digitsVal (format06digits draw) = draw := by
    simp [digitsVal, format06digits]
    omega
  refine ⟨?_, ?_, hval, ?_, ?_⟩
  · simp [generate_room_id, String.length, format06digits]
  · intro c hc
    have hd : ∀ d : Nat, d < 10 → '0' ≤ digitChar d ∧ digitChar d ≤ '9' := by
      decide
    obtain ⟨d, hdmem, rfl⟩ := List.mem_map.mp hc
    simp [format06digits] at hdmem
    rcases hdmem with h | h | h | h | h | h <;> subst h <;>
      exact hd _ (Nat.mod_lt _ (by norm_num))
  · omega
  · omega

theorem generate_room_id_spec_witness :
    (generate_room_id 123456).length = 6
    ∧ generate_room_id 123456 = "123456" :=
  ⟨(generate_room_id_spec 123456 (by norm_num) (by norm_num)).1, by decide⟩

/-- C9 counterexample: no draw of `gen_range(100000..999999)` produces the
room id `"999999"`, refuting the claim that every value of the inclusive
range `100000..=999999` (including `999999`) is a possible output. -/
theorem room_id_999999_counterexample :
    ¬ ∃ draw, 100000 ≤ draw ∧ draw < 999999
        ∧ generate_room_id draw = "999999" := by
  rintro ⟨d, h1, h2, h3⟩
  have hdata : (format06digits d).map digitChar = "999999".data :=
    congrArg String.data h3
  have hchars : "999999".data = ['9', '9', '9', '9', '9', '9'] := rfl
  rw [hchars] at hdata
  simp only [format06digits, List.map, List.cons.injEq, and_true] at hdata
  have hd9 : ∀ x : Nat, x < 10 → digitChar x = '9' → x = 9 := by decide
  have e1 := hd9 _ (Nat.mod_lt _ (by norm_num)) hdata.1
  have e2 := hd9 _ (Nat.mod_lt _ (by norm_num)) hdata.2.1
  have e3 := hd9 _ (Nat.mod_lt _ (by norm_num)) hdata.2.2.1
  have e4 := hd9 _ (Nat.mod_lt _ (by norm_num)) hdata.2.2.2.1
  have e5 := hd9 _ (Nat.mod_lt _ (by norm_num)) hdata.2.2.2.2.1
  have e6 := hd9 _ (Nat.mod_lt _ (by norm_num)) hdata.2.2.2.2.2
  omega

/-! ## C7: exam-grade basis points
(`SfuSignalingHandler::handle_submit_exam_result`, `signaling.rs`) -/

/-- Exam grade record stored per peer (`server.rs`, `struct ExamGrade`);
the grade is a `u64` in basis points. -/
structure ExamGrade where
  grade : Nat
  exam_name : String
deriving DecidableEq, Repr

/-- Result of `handle_submit_exam_result`: the grade stored via
`set_exam_grade` and the grade echoed back in `ExamResultSubmitted`. -/
structure ExamSubmitOutcome where
  stored : ExamGrade
  echoed_grade : Nat
deriving DecidableEq, Repr

/-- `handle_submit_exam_result` (`signaling.rs`): computes
`grade = if total > 0 { (score * 10000) / total } else { 0 }` in `u64`
arithmetic — the multiplication wraps modulo `2^64` (release-build
semantics) — stores the grade and echoes it in `ExamResultSubmitted`. -/
def handle_submit_exam_result (room_id peer_id : String)
    (score total : Nat) (exam_name : Option String) : ExamSubmitOutcome :=
  let grade := if total > 0 then score * 10000 % 2 ^ 64 / total else 0
  let name := exam_name.getD ("Exam Session " ++ room_id)
  ⟨⟨grade, name⟩, grade⟩

/-- C7 counterexample: at `score = 2^63`, `total = 1` (both valid `u64`
values) the claimed exact result is `2^63 * 10000`, but the `u64`
multiplication wraps and the code stores and echoes grade `0`. -/
theorem submit_exam_result_counterexample :
    (handle_submit_exam_result "100000" "s1" (2 ^ 63) 1 none).echoed_grade = 0
    ∧ (handle_submit_exam_result "100000" "s1" (2 ^ 63) 1 none).stored.grade = 0
    ∧ 2 ^ 63 * 10000 / 1 ≠ 0 := by
  refine ⟨by decide, by decide, by norm_num⟩

/-- C7 (amended): for `u64` inputs the stored and echoed grade is `0` when
`total = 0`, equals `(score * 10000 mod 2^64) / total` when `total > 0`,
and agrees with the exact `⌊score·10000/total⌋` exactly when the
multiplication does not overflow (`score * 10000 < 2^64`). -/
theorem submit_exam_result_grade_spec (room_id peer_id : String)
    (score total : Nat) (nm : Option String)
    (hs : score < 2 ^ 64) (ht : total < 2 ^ 64) :
    ((handle_submit_exam_result room_id peer_id score total nm).stored.grade
      = (handle_submit_exam_result room_id peer_id score total nm).echoed_grade)
    ∧ (total = 0 →
      (handle_submit_exam_result room_id peer_id score total nm).echoed_grade = 0)
    ∧ (0 < total →
      (handle_submit_exam_result room_id peer_id score total nm).echoed_grade
        = score * 10000 % 2 ^ 64 / total)
    ∧ (0 < total → score * 10000 < 2 ^ 64 →
      (handle_submit_exam_result room_id peer_id score total nm).echoed_grade
        = score * 10000 / total) := by
  refine ⟨rfl, ?_, ?_, ?_⟩
  · intro h
    simp [handle_submit_exam_result, h]
  · intro h
    simp [handle_submit_exam_result, h]
  · intro h hov
    simp [handle_submit_exam_result, h]
    have hov' : score * 10000 < 18446744073709551616 := by
      have hp : (2 : ℕ) ^ 64 = 18446744073709551616 := by norm_num
      rw [hp] at hov
      exact hov
    rw [Nat.mod_eq_of_lt hov']

theorem submit_exam_result_grade_spec_witness :
    (handle_submit_exam_result "100000" "s1" 85 100 none).echoed_grade
      = 8500 := by
  have h := (submit_exam_result_grade_spec "100000" "s1" 85 100 none
    (by norm_num) (by norm_num)).2.2.2 (by norm_num) (by norm_num)
  simpa using h

/-! ## C10: `TrackManager::add_track` replaces an existing entry
(`src/sfu/track_manager.rs`) -/

/-- Handle to an inbound remote RTP track (`Arc<TrackRemote>`): the fields
`add_track` reads from it. -/
structure RemoteTrack where
  kind : String
  ssrc : Nat
  codec : String
deriving DecidableEq, Repr

/-- A per-subscriber local forwarder (`Arc<TrackLocalStaticRTP>`). -/
structure LocalTrack where
  codec : String
  track_id : String
  stream_id : String
deriving DecidableEq, Repr

/-- `ForwardedTrack` of `track_manager.rs`. -/
structure ForwardedTrack where
  id : String
  kind : String
  source_peer_id : String
  remote_track : RemoteTrack
  local_tracks : List (String × LocalTrack)
deriving DecidableEq, Repr

/-- `TrackManager`: `tracks: HashMap<String, ForwardedTrack>`. -/
structure TrackManager where
  tracks : List (String × ForwardedTrack)
deriving DecidableEq, Repr

/-- `TrackManager::add_track`: builds a fresh `ForwardedTrack` with
`local_tracks: HashMap::new()` and inserts it under `track_id`
(`HashMap::insert`, overwriting), returning unit — no error path. -/
def TrackManager.add_track (track_id source_peer_id : String)
    (rt : RemoteTrack) (tm : TrackManager) : TrackManager :=
  ⟨insertA track_id ⟨track_id, rt.kind, source_peer_id, rt, []⟩ tm.tracks⟩

/-- `TrackManager::get_track`: shallow snapshot. -/
def TrackManager.get_track (track_id : String) (tm : TrackManager) :
    Option ForwardedTrack :=
  lookupA track_id tm.tracks

/-- C10: calling `add_track` with a `track_id` already present replaces
the old entry by a fresh one with an empty sink map, so every sink
previously registered for that track id disappears from subsequent
`get_track` snapshots; `add_track` returns unit, reporting no error. -/
theorem add_track_replaces (tm : TrackManager) (tid src : String)
    (rt : RemoteTrack) (old : ForwardedTrack)
    (h : tm.get_track tid = some old) :
    (tm.add_track tid src rt).get_track tid
      = some ⟨tid, rt.kind, src, rt, []⟩
    ∧ ∀ sub lt, lookupA sub old.local_tracks = some lt →
        ∀ ft, (tm.add_track tid src rt).get_track tid = some ft →
          lookupA sub ft.local_tracks = none := by
  constructor
  · simp [TrackManager.add_track, TrackManager.get_track, lookupA_insertA]
  · intro sub lt hsub ft hft
    simp [TrackManager.add_track, TrackManager.get_track,
      lookupA_insertA] at hft
    rw [← hft]
    rfl

def tmWitness : TrackManager :=
  ⟨[("p1_video_t0",
     ⟨"p1_video_t0", "video", "p1", ⟨"video", 42, "VP8"⟩,
      [("s1", ⟨"VP8", "p1_video_t0", "p1_stream"⟩)]⟩)]⟩

theorem add_track_replaces_witness :
    (tmWitness.add_track "p1_video_t0" "p1"
        ⟨"video", 43, "VP8"⟩).get_track "p1_video_t0"
      = some ⟨"p1_video_t0", "video", "p1", ⟨"video", 43, "VP8"⟩, []⟩ :=
  (add_track_replaces tmWitness "p1_video_t0" "p1" ⟨"video", 43, "VP8"⟩
    ⟨"p1_video_t0", "video", "p1", ⟨"video", 42, "VP8"⟩,
     [("s1", ⟨"VP8", "p1_video_t0", "p1_stream"⟩)]⟩ rfl).1

/-! ## C6: pending-ICE queue replay
(`SfuServer::handle_ice_candidate` / `flush_pending_ice_candidates`) -/

/-- Queued ICE candidate (`struct PendingIceCandidate`, `server.rs`). -/
structure PendingIceCandidate where
  candidate : String
  sdp_mid : Option String
  sdp_mline_index : Option Nat
deriving DecidableEq, Repr

/-- The parts of one peer's connection the ICE path observes: whether the
remote description has been set, and the candidates added to the
connection, in order. -/
structure IceConn where
  remote_set : Bool
  added : List PendingIceCandidate
deriving DecidableEq, Repr

/-- One peer's view of `SfuServer`: its optional connection entry and its
`pending_ice_candidates` queue. -/
structure IcePeerState where
  conn : Option IceConn
  pending : List PendingIceCandidate
deriving DecidableEq, Repr

/-- `SfuServer::handle_ice_candidate` (`server.rs:664-716`) for one peer:
no connection → candidate ignored; remote description unset → push onto
the pending queue; otherwise add to the connection. -/
def handle_ice_candidate (c : PendingIceCandidate) (st : IcePeerState) :
    IcePeerState :=
  match st.conn with
  | none => st
  | some conn =>
    if conn.remote_set then
      { st with conn := some { conn with added := conn.added ++ [c] } }
    else
      { st with pending := st.pending ++ [c] }

/-- `SfuServer::flush_pending_ice_candidates` (`server.rs:622-661`):
removes the peer's queue and adds each queued candidate to the connection
in order. -/
def flush_pending_ice_candidates (st : IcePeerState) : IcePeerState :=
  match st.conn with
  | none => st
  | some conn => ⟨some { conn with added := conn.added ++ st.pending }, []⟩

/-- `SfuServer::handle_answer` (`server.rs:595-620`): sets the remote
description, then flushes the pending queue. -/
def handle_answer (st : IcePeerState) : IcePeerState :=
  match st.conn with
  | none => st
  | some conn =>
    flush_pending_ice_candidates ⟨some { conn with remote_set := true }, st.pending⟩

theorem handle_ice_fold (cs : List PendingIceCandidate) :
    ∀ (st : IcePeerState) (conn0 : IceConn), st.conn = some conn0 →
      conn0.remote_set = false →
      (cs.foldl (fun s c => handle_ice_candidate c s) st).conn = st.conn
      ∧ (cs.foldl (fun s c => handle_ice_candidate c s) st).pending
          = st.pending ++ cs := by
  induction cs with
  | nil =>
    intro st conn0 hc hr
    simp
  | cons c rest ih =>
    intro st conn0 hc hr
    have hstep : handle_ice_candidate c st
        = { st with pending := st.pending ++ [c] } := by
      simp [handle_ice_candidate, hc, hr]
    rw [List.foldl_cons, hstep]
    obtain ⟨ha, hb⟩ := ih { st with pending := st.pending ++ [c] } conn0
      (by simp [hc]) hr
    simp at ha hb
    rw [ha, hb]
    simp

/-- C6: while the remote description is unset, every arriving ICE
candidate is appended to the peer's pending queue in arrival order and
none is added to the connection; once the answer is applied, exactly the
queued candidates are added to the connection in their original order and
the queue is emptied. -/
theorem ice_candidates_replayed_in_order (st : IcePeerState)
    (conn0 : IceConn) (cs : List PendingIceCandidate)
    (hc : st.conn = some conn0) (hr : conn0.remote_set = false) :
    ((cs.foldl (fun s c => handle_ice_candidate c s) st).conn = some conn0
      ∧ (cs.foldl (fun s c => handle_ice_candidate c s) st).pending
          = st.pending ++ cs)
    ∧ (handle_answer (cs.foldl (fun s c => handle_ice_candidate c s) st)).conn
        = some ⟨true, conn0.added ++ (st.pending ++ cs)⟩
    ∧ (handle_answer
        (cs.foldl (fun s c => handle_ice_candidate c s) st)).pending = [] := by
  obtain ⟨h1, h2⟩ := handle_ice_fold cs st conn0 hc hr
  rw [hc] at h1
  refine ⟨⟨h1, h2⟩, ?_, ?_⟩
  · simp [handle_answer, flush_pending_ice_candidates, h1, h2]
  · simp [handle_answer, flush_pending_ice_candidates, h1]

theorem ice_candidates_replayed_in_order_witness :
    (handle_answer
      ([⟨"c1", none, none⟩, ⟨"c2", none, none⟩,
        ⟨"c3", none, none⟩].foldl (fun s c => handle_ice_candidate c s)
        (⟨some ⟨false, []⟩, []⟩ : IcePeerState))).conn
    = some ⟨true, [⟨"c1", none, none⟩, ⟨"c2", none, none⟩,
        ⟨"c3", none, none⟩]⟩ := by
  have h := (ice_candidates_replayed_in_order ⟨some ⟨false, []⟩, []⟩
    ⟨false, []⟩ [⟨"c1", none, none⟩, ⟨"c2", none, none⟩, ⟨"c3", none, none⟩]
    rfl rfl).2.1
  simpa using h

/-! ## C8: event-sink room dependency (`src/substrate/queue.rs`) -/

/-- `Role` (`substrate/client.rs`). -/
inductive Role
  | Proctor
  | Student
deriving DecidableEq, Repr

/-- `LeaveReason` (`substrate/client.rs`): note there is no `ProctorLeft`
variant. -/
inductive LeaveReason
  | Normal
  | Kicked
  | Disconnected
  | RoomClosed
deriving DecidableEq, Repr

/-- `VerificationStatus` (`substrate/client.rs`). -/
inductive VerificationStatus
  | Valid
  | Invalid
  | Pending
  | Skipped
deriving DecidableEq, Repr

/-- `SuspiciousActivityType` (`substrate/client.rs`). -/
inductive SuspiciousActivityType
  | MultipleDevices
  | TabSwitch
  | WindowBlur
  | ScreenShare
  | UnauthorizedPerson
  | AudioAnomaly
  | Other
deriving DecidableEq, Repr

/-- `RoomCloseReason` (`substrate/client.rs`). -/
inductive RoomCloseReason
  | ProctorLeft
  | SessionCompleted
  | AdminClosed
  | Timeout
deriving DecidableEq, Repr

/-- `ChainEvent` (`substrate/queue.rs`); the 20-byte `Address` is modeled
as an opaque string (its `{:?}` rendering). -/
inductive ChainEvent
  | RoomCreated (room_id : String) (proctor : String)
      (proctor_name : Option String)
  | ParticipantJoined (room_id : String) (participant : String)
      (name : Option String) (role : Role)
  | ParticipantLeft (room_id : String) (participant : String)
      (reason : LeaveReason)
  | ParticipantKicked (room_id : String) (proctor : String)
      (kicked : String) (reason : Option String)
  | IdVerification (room_id : String) (participant : String)
      (status : VerificationStatus) (verified_by : String)
  | SuspiciousActivity (room_id : String) (participant : String)
      (activity_type : SuspiciousActivityType) (details : Option String)
  | RecordingStarted (room_id : String) (participant : String)
  | RecordingStopped (room_id : String) (participant : String)
      (duration_secs : Nat) (ipfs_cid : Option String)
  | RoomClosed (room_id : String) (reason : RoomCloseReason)
  | CreateExamResult (room_id : String) (participant : String)
      (grade : Nat) (exam_name : String)
  | AddRecordingToResult (result_id : Nat) (ipfs_cid : String)
  | AddRecordingsToResult (result_id : Nat) (ipfs_cids : List String)
  | UpdateExamResultGrade (result_id : Nat) (new_grade : Nat)
  | MarkNftMinted (result_id : Nat)
deriving DecidableEq, Repr

/-- `ChainEvent::dependency_key`. -/
def ChainEvent.dependency_key : ChainEvent → Option String
  | .RoomCreated rid _ _ => some ("room:" ++ rid)
  | .RoomClosed rid _ => some ("room:" ++ rid)
  | .ParticipantJoined rid p _ _ =>
    some ("room:" ++ rid ++ ":participant:" ++ p)
  | .ParticipantLeft rid p _ =>
    some ("room:" ++ rid ++ ":participant:" ++ p)
  | .ParticipantKicked rid _ kicked _ =>
    some ("room:" ++ rid ++ ":participant:" ++ kicked)
  | .IdVerification rid p _ _ =>
    some ("room:" ++ rid ++ ":participant:" ++ p)
  | .SuspiciousActivity rid p _ _ =>
    some ("room:" ++ rid ++ ":participant:" ++ p)
  | .RecordingStarted rid p =>
    some ("room:" ++ rid ++ ":participant:" ++ p)
  | .RecordingStopped rid p _ _ =>
    some ("room:" ++ rid ++ ":participant:" ++ p)
  | .CreateExamResult rid p _ _ =>
    some ("room:" ++ rid ++ ":participant:" ++ p)
  | .AddRecordingToResult result_id _ =>
    some ("result:" ++ toString result_id)
  | .AddRecordingsToResult result_id _ =>
    some ("result:" ++ toString result_id)
  | .UpdateExamResultGrade result_id _ =>
    some ("result:" ++ toString result_id)
  | .MarkNftMinted result_id =>
    some ("result:" ++ toString result_id)

/-- `ChainEvent::room_dependency`. -/
def ChainEvent.room_dependency : ChainEvent → Option String
  | .RoomCreated _ _ _ => none
  | .ParticipantJoined rid _ _ _ => some rid
  | .ParticipantLeft rid _ _ => some rid
  | .ParticipantKicked rid _ _ _ => some rid
  | .IdVerification rid _ _ _ => some rid
  | .SuspiciousActivity rid _ _ _ => some rid
  | .RecordingStarted rid _ => some rid
  | .RecordingStopped rid _ _ _ => some rid
  | .RoomClosed rid _ => some rid
  | .CreateExamResult rid _ _ _ => some rid
  | .AddRecordingToResult _ _ => none
  | .AddRecordingsToResult _ _ => none
  | .UpdateExamResultGrade _ _ => none
  | .MarkNftMinted _ => none

/-- `TX_DELAY` (3 seconds); time is modeled in whole seconds. -/
def TX_DELAY : Nat := 3

/-- `TransactionTracker` (`queue.rs`): last completion instant per
dependency key, and the per-room RoomCreated completion flags. -/
structure TransactionTracker where
  last_tx_times : List (String × Nat)
  room_created : List (String × Bool)
deriving DecidableEq, Repr

/-- `TransactionTracker::needs_delay`: if the event has a room dependency
whose `RoomCreated` has not completed, return the fixed `TX_DELAY` — with
no re-check after the sleep; otherwise apply the per-key 3-second
spacing. -/
def needs_delay (tr : TransactionTracker) (now : Nat) (e : ChainEvent) :
    Option Nat :=
  if (match e.room_dependency with
      | some rid => !((lookupA rid tr.room_created).getD false)
      | none => false) then
    some TX_DELAY
  else
    match e.dependency_key with
    | some key =>
      match lookupA key tr.last_tx_times with
      | some last =>
        if now - last < TX_DELAY then some (TX_DELAY - (now - last)) else none
      | none => none
    | none => none

/-- `TransactionTracker::record_completion`. -/
def record_completion (tr : TransactionTracker) (now : Nat)
    (e : ChainEvent) : TransactionTracker :=
  let tr1 := match e with
    | .RoomCreated rid _ _ =>
      { tr with room_created := insertA rid true tr.room_created }
    | _ => tr
  match e.dependency_key with
  | some k => { tr1 with last_tx_times := insertA k now tr1.last_tx_times }
  | none => tr1

/-- `EventQueue::process_events`: consumes events FIFO; each event sleeps
its `needs_delay`, is then submitted unconditionally, and its completion
is recorded. Output: for each event, its submission time and whether the
`RoomCreated` of its room dependency had completed at submission
(`true` for events without a room dependency). -/
def processEvents (tr : TransactionTracker) (now : Nat) :
    List ChainEvent → List (ChainEvent × Nat × Bool)
  | [] => []
  | e :: rest =>
    let d := (needs_delay tr now e).getD 0
    let t := now + d
    let met := match e.room_dependency with
      | some r => (lookupA r tr.room_created).getD false
      | none => true
    (e, t, met) :: processEvents (record_completion tr t e) t rest

theorem processEvents_fifo (evs : List ChainEvent) :
    ∀ tr now, (processEvents tr now evs).map (fun out => out.1) = evs := by
  induction evs with
  | nil => intro tr now; rfl
  | cons e rest ih =>
    intro tr now
    simp only [processEvents, List.map_cons, List.cons.injEq]
    exact ⟨trivial, ih _ _⟩

def participantJoinedW : ChainEvent :=
  .ParticipantJoined "100000" "0xa1" none .Student

/-- C8 counterexample: from an empty tracker, a `ParticipantJoined` event
for room `"100000"` — whose `RoomCreated` has never completed — is
nevertheless submitted (after the one-shot `TX_DELAY` sleep): the claim
that such events are not submitted until `RoomCreated` has completed is
false. -/
theorem event_queue_room_dependency_counterexample :
    ¬ (∀ out ∈ processEvents ⟨[], []⟩ 0 [participantJoinedW],
        (out.1.room_dependency).isSome → out.2.2 = true) := by
  decide

/-- C8 (amended): the background processor consumes events FIFO and
submits every event; an event with a room dependency whose `RoomCreated`
has not completed is held back only by a single fixed `TX_DELAY` (3 s)
sleep and is then submitted regardless — completion of `RoomCreated` is
not re-checked; when the room dependency has completed, the per-key
3-second spacing applies. -/
theorem event_queue_delay_spec (tr : TransactionTracker) (now : Nat)
    (evs : List ChainEvent) :
    ((processEvents tr now evs).map (fun out => out.1) = evs)
    ∧ (∀ e rid, e.room_dependency = some rid →
        (lookupA rid tr.room_created).getD false = false →
        needs_delay tr now e = some TX_DELAY)
    ∧ (∀ e rid key last, e.room_dependency = some rid →
        (lookupA rid tr.room_created).getD false = true →
        e.dependency_key = some key →
        lookupA key tr.last_tx_times = some last →
        now - last < TX_DELAY →
        needs_delay tr now e = some (TX_DELAY - (now - last))) := by
  refine ⟨processEvents_fifo evs tr now, ?_, ?_⟩
  · intro e rid h1 h2
    simp [needs_delay, h1, h2]
  · intro e rid key last h1 h2 hkey hlast hlt
    simp [needs_delay, h1, h2, hkey, hlast, hlt]

theorem event_queue_delay_spec_witness :
    ((processEvents ⟨[], []⟩ 0 [participantJoinedW]).map (fun out => out.1)
      = [participantJoinedW])
    ∧ needs_delay ⟨[], []⟩ 0 participantJoinedW = some TX_DELAY :=
  ⟨(event_queue_delay_spec ⟨[], []⟩ 0 [participantJoinedW]).1,
   (event_queue_delay_spec ⟨[], []⟩ 0 [participantJoinedW]).2.1
     participantJoinedW "100000" rfl rfl⟩

/-! ## C3: server-level `remove_peer` for a proctor
(`SfuServer::remove_peer`, `src/sfu/server.rs:362-550`) -/

/-- `TrackManager::remove_peer_tracks`: drop every track whose source is
this peer. -/
def TrackManager.remove_peer_tracks (peer_id : String) (tm : TrackManager) :
    TrackManager :=
  ⟨tm.tracks.filter (fun t => decide (t.2.source_peer_id ≠ peer_id))⟩

/-- `RecordingManager::stop_recording`: returns the finished recording's
CID when a pipeline for `(room_id, peer_id)` exists (`Ok(result)`), and
the remaining pipelines. -/
def stop_recording (rid pid : String)
    (recs : List (String × String × Option String)) :
    Option (Option String) × List (String × String × Option String) :=
  match recs.find? (fun r => decide (r.1 = rid) && decide (r.2.1 = pid)) with
  | some r =>
    (some r.2.2,
     recs.filter (fun q => !(decide (q.1 = rid) && decide (q.2.1 = pid))))
  | none => (none, recs)

/-- The server state that `SfuServer::remove_peer` reads and writes. The
event queue is taken as configured, wallets are the parsed addresses,
recordings are the active `(room_id, peer_id)` pipelines with the CID
their artifact gets on stop. -/
structure ServerState where
  rm : RoomManager
  connections : List String
  wallets : List (String × String)
  recordings : List (String × String × Option String)
  peer_exam_grades : List (String × ExamGrade)
  tracks : TrackManager
  pending_ice : List (String × List PendingIceCandidate)
  pending_renegotiations : List (String × Bool)

/-- `SfuServer::remove_peer` (`server.rs:362-550`): removes the peer from
the room registry first, closes its connection, purges its tracks and
pending entries, then — when the peer was the room's Proctor — stops all
recordings of the room and emits, in order, `RecordingStopped` for each
stopped recording whose peer has a wallet, `ParticipantLeft{Normal}` for
the proctor (if a wallet is known), `ParticipantLeft{RoomClosed}` for each
entry of `students_to_close` with a wallet, and `RoomClosed{ProctorLeft}`;
finally it closes the connections of `students_to_close`. Note
`students_to_close` is computed from `get_room_peers` on the registry
state after `RoomManager::remove_peer` already evicted the room's peers.
The outbound WebSocket notification of the student branch is not a domain
event and is not modeled. Returns the new state and the emitted events in
order. -/
def SfuServer.remove_peer (pid : String) (st : ServerState) :
    ServerState × List ChainEvent :=
  let step := st.rm.remove_peer pid
  let rm' := step.2
  let conns1 := st.connections.filter (fun c => decide (c ≠ pid))
  let tracks1 := st.tracks.remove_peer_tracks pid
  let ice1 := eraseA pid st.pending_ice
  let renego1 := eraseA pid st.pending_renegotiations
  match step.1 with
  | none =>
    ({ st with
        rm := rm'
        connections := conns1
        tracks := tracks1
        pending_ice := ice1
        pending_renegotiations := renego1 }, [])
  | some (rid, role, _) =>
    let peer_wallet := lookupA pid st.wallets
    match role with
    | .Proctor =>
      let stopped := (st.recordings.filter (fun r => decide (r.1 = rid))).map
        (fun r => (r.2.1, r.2.2))
      let recs1 := st.recordings.filter (fun r => decide (r.1 ≠ rid))
      let ev1 := stopped.filterMap (fun sr =>
        (lookupA sr.1 st.wallets).map
          (fun w => ChainEvent.RecordingStopped rid w 0 sr.2))
      let ev2 := match peer_wallet with
        | some w => [ChainEvent.ParticipantLeft rid w LeaveReason.Normal]
        | none => []
      let students_to_close :=
        ((rm'.get_room_peers rid).filter (fun p => decide (p.id ≠ pid))).map
          Peer.id
      let ev3 := students_to_close.filterMap (fun sid =>
        (lookupA sid st.wallets).map
          (fun w => ChainEvent.ParticipantLeft rid w LeaveReason.RoomClosed))
      let ev4 := [ChainEvent.RoomClosed rid RoomCloseReason.ProctorLeft]
      let conns2 := conns1.filter (fun c => decide (c ∉ students_to_close))
      let tracks2 := students_to_close.foldl
        (fun tm sid => tm.remove_peer_tracks sid) tracks1
      let wallets1 := st.wallets.filter
        (fun w => decide (w.1 ∉ students_to_close))
      ({ rm := rm'
         connections := conns2
         wallets := eraseA pid wallets1
         recordings := recs1
         peer_exam_grades := st.peer_exam_grades
         tracks := tracks2
         pending_ice := ice1
         pending_renegotiations := renego1 },
       ev1 ++ ev2 ++ ev3 ++ ev4)
    | .Student =>
      let exam_grade := lookupA pid st.peer_exam_grades
      let stopres := stop_recording rid pid st.recordings
      let ev1 := match stopres.1, peer_wallet with
        | some cid, some w =>
          let ge := match exam_grade with
            | some eg => (eg.grade, eg.exam_name)
            | none => (0, "Exam Session " ++ rid)
          [ChainEvent.CreateExamResult rid w ge.1 ge.2,
           ChainEvent.RecordingStopped rid w 0 cid]
        | _, _ => []
      let ev2 := match peer_wallet with
        | some w => [ChainEvent.ParticipantLeft rid w LeaveReason.Normal]
        | none => []
      ({ rm := rm'
         connections := conns1
         wallets := eraseA pid st.wallets
         recordings := stopres.2
         peer_exam_grades := eraseA pid st.peer_exam_grades
         tracks := tracks1
         pending_ice := ice1
         pending_renegotiations := renego1 },
       ev1 ++ ev2)

/-- A room `"100000"` with proctor `"p1"` and one student `"s1"`, both
connected, both with wallets, both with running recordings. -/
def c3State : ServerState :=
  { rm := ⟨[("100000", ⟨"100000", "p1", ["s1"]⟩)],
           [("p1", ⟨"p1", PeerRole.Proctor, "100000", none⟩),
            ("s1", ⟨"s1", PeerRole.Student, "100000", none⟩)]⟩
    connections := ["p1", "s1"]
    wallets := [("p1", "0xaaaa"), ("s1", "0xbbbb")]
    recordings := [("100000", "p1", some "cidP"),
                   ("100000", "s1", some "cidS")]
    peer_exam_grades := []
    tracks := ⟨[]⟩
    pending_ice := []
    pending_renegotiations := [] }

/-- C3: evaluating `SfuServer::remove_peer` on the proctor of a room with
one student shows the emitted sequence is `RecordingStopped` (proctor),
`RecordingStopped` (student), `ParticipantLeft{reason: Normal}` for the
proctor, `RoomClosed{ProctorLeft}`: no `ParticipantLeft{RoomClosed}` is
emitted for the student (the room registry was already emptied when
`students_to_close` is computed), the student's connection stays open, and
the proctor's leave reason is `Normal` — `LeaveReason` has no
`ProctorLeft` variant at all. -/
theorem server_remove_peer_proctor_divergence :
    (SfuServer.remove_peer "p1" c3State).2
      = [ChainEvent.RecordingStopped "100000" "0xaaaa" 0 (some "cidP"),
         ChainEvent.RecordingStopped "100000" "0xbbbb" 0 (some "cidS"),
         ChainEvent.ParticipantLeft "100000" "0xaaaa" LeaveReason.Normal,
         ChainEvent.RoomClosed "100000" RoomCloseReason.ProctorLeft]
    ∧ (SfuServer.remove_peer "p1" c3State).1.connections = ["s1"]
    ∧ (∀ e ∈ (SfuServer.remove_peer "p1" c3State).2,
        e ≠ ChainEvent.ParticipantLeft "100000" "0xbbbb"
          LeaveReason.RoomClosed) := by
  refine ⟨by decide, by decide, by decide⟩
